import Mathlib

/-!
Verification of the coworkany RAG service core (src/rag-service):
`indexer.py` (markdown parsing and chunking), `embeddings.py` (cosine
similarity), and `main.py` (index/sweep/delete endpoints and ID derivation).

Text is modelled as `List Char`.  External libraries are modelled as
parameters or faithful reimplementations: `yaml.safe_load` is an abstract
fallible function, `hashlib.md5` is implemented bit-for-bit (RFC 1321),
`np.linalg.norm`'s square root is an abstract parameter over `ℚ`, and the
ChromaDB collection is an association list with upsert/delete/count.
-/

/-- Convert a Lean string literal to the `List Char` text representation. -/
def str (s : String) : List Char := s.data

/-- Python `str` whitespace characters (ASCII subset), as used by
`str.strip()` and the regex class `\s`. -/
def pyWs (c : Char) : Bool :=
  c == ' ' || c == '\t' || c == '\n' || c == '\r' || c == '\x0b' || c == '\x0c'

/-- Python `str.strip()`: drop leading and trailing whitespace. -/
def strip (l : List Char) : List Char :=
  ((l.dropWhile pyWs).reverse.dropWhile pyWs).reverse

/-- Python `str.split(sep)` for a single-character separator: split on every
occurrence, keeping empty segments (used for `","` and `"/"`). -/
def splitOnChar (sep : Char) : List Char → List (List Char)
  | [] => [[]]
  | c :: rest =>
    if c = sep then [] :: splitOnChar sep rest
    else
      match splitOnChar sep rest with
      | [] => [[c]]
      | h :: t => (c :: h) :: t

/-- Python `content.split("\n\n")`: split on non-overlapping occurrences of
the two-character separator, scanning left to right (paragraph split in
`VaultIndexer.chunk_document`). -/
def splitParas : List Char → List (List Char)
  | [] => [[]]
  | '\n' :: '\n' :: rest => [] :: splitParas rest
  | c :: rest =>
    match splitParas rest with
    | [] => [[c]]
    | h :: t => (c :: h) :: t

/-- Sentence-ending punctuation of the regex `(?<=[.!?])\s+`. -/
def isPunct (c : Char) : Bool := c == '.' || c == '!' || c == '?'

/-- State machine for Python `re.split(r'(?<=[.!?])\s+', text)`:
`prev` is the previously scanned character (for the lookbehind), `skipping`
is true while consuming the maximal whitespace run of a split match. -/
def sentAux : Char → Bool → List Char → List (List Char)
  | _, _, [] => [[]]
  | prev, skipping, c :: rest =>
    if skipping then
      if pyWs c then sentAux prev true rest
      else
        match sentAux c false rest with
        | [] => [[c]]
        | h :: t => (c :: h) :: t
    else
      if pyWs c && isPunct prev then
        [] :: sentAux prev true rest
      else
        match sentAux c false rest with
        | [] => [[c]]
        | h :: t => (c :: h) :: t

/-- Python `re.split(r'(?<=[.!?])\s+', text)`.  The initial previous
character is a NUL (no predecessor, so the lookbehind fails at position 0). -/
def sentSplit (text : List Char) : List (List Char) :=
  sentAux '\x00' false text

/-- Model of `VaultIndexer._split_sentences` (indexer.py): regex split followed by
`[s.strip() for s in sentences if s.strip()]`. -/
def split_sentences (text : List Char) : List (List Char) :=
  ((sentSplit text).map strip).filter (fun s => decide (s ≠ []))

/-- The flush step `if current_chunk: chunks.append(current_chunk.strip())`:
flush the running buffer into the chunk list when it is non-empty. -/
def pushChunk (chunks : List (List Char)) (cc : List Char) : List (List Char) :=
  if cc = [] then chunks else chunks ++ [strip cc]

/-- The inner sentence loop of `VaultIndexer.chunk_document` (lines 148-154):
greedy packing of sentences with overflow rule
`len(current_chunk) + len(sentence) + 1 > chunk_size`.  State is
`(chunks, current_chunk)`. -/
def sentLoop (cs : Nat) : List (List Char) → List Char → List (List Char) →
    List (List Char) × List Char
  | chunks, cc, [] => (chunks, cc)
  | chunks, cc, s :: rest =>
    if cs < cc.length + s.length + 1 then
      sentLoop cs (pushChunk chunks cc) s rest
    else
      sentLoop cs chunks (strip (cc ++ ' ' :: s)) rest

/-- The paragraph loop of `VaultIndexer.chunk_document` (lines 135-158).
Note that in the long-paragraph branch the source flushes `current_chunk`
but does not reset it before entering the sentence loop; the model mirrors
this exactly (`sentLoop … cc …`). -/
def paraLoop (cs : Nat) : List (List Char) → List Char → List (List Char) →
    List (List Char) × List Char
  | chunks, cc, [] => (chunks, cc)
  | chunks, cc, p0 :: rest =>
    let p := strip p0
    if p = [] then paraLoop cs chunks cc rest
    else if cs < cc.length + p.length + 2 then
      let st :=
        if cs < p.length then
          sentLoop cs (pushChunk chunks cc) cc (split_sentences p)
        else (pushChunk chunks cc, p)
      paraLoop cs st.1 st.2 rest
    else paraLoop cs chunks (strip (cc ++ '\n' :: '\n' :: p)) rest

/-- Model of `VaultIndexer.chunk_document` (indexer.py lines 114-164), on the
document content, with `chunk_size` as the `cs` parameter. -/
def chunk_document (cs : Nat) (content : List Char) : List (List Char) :=
  if content.length ≤ cs then [content]
  else
    let st := paraLoop cs [] [] (splitParas content)
    pushChunk st.1 st.2

/-- Modelled from the spec (section 4.2): the greedy chunking algorithm as the
specification states it — after flushing the running buffer, the next buffer
starts empty, so each new buffer begins with exactly the overflowing
sentence/paragraph.  Identical to `paraLoop` except that the sentence loop is
entered with an empty buffer. -/
def paraLoopSpec (cs : Nat) : List (List Char) → List Char → List (List Char) →
    List (List Char) × List Char
  | chunks, cc, [] => (chunks, cc)
  | chunks, cc, p0 :: rest =>
    let p := strip p0
    if p = [] then paraLoopSpec cs chunks cc rest
    else if cs < cc.length + p.length + 2 then
      let st :=
        if cs < p.length then
          sentLoop cs (pushChunk chunks cc) [] (split_sentences p)
        else (pushChunk chunks cc, p)
      paraLoopSpec cs st.1 st.2 rest
    else paraLoopSpec cs chunks (strip (cc ++ '\n' :: '\n' :: p)) rest

/-- Modelled from the spec (section 4.2): chunking with the buffer reset on
flush, for comparison with the source's `chunk_document`. -/
def chunkSpec (cs : Nat) (content : List Char) : List (List Char) :=
  if content.length ≤ cs then [content]
  else
    let st := paraLoopSpec cs [] [] (splitParas content)
    pushChunk st.1 st.2

/-- All atomic sentences of a document: the sentence splits of each stripped
paragraph.  Oversized chunks can only be such sentences. -/
def sentPool (content : List Char) : List (List Char) :=
  (splitParas content).flatMap (fun p0 => split_sentences (strip p0))

/-! ## YAML values and Python truthiness

`yaml.safe_load` is external (PyYAML); it is modelled as an abstract
parameter `safeLoad : List Char → Except Unit Yaml` where `.error` models a
raised `yaml.YAMLError` and `Yaml` is the universe of values it can return. -/

/-- A value produced by `yaml.safe_load` (also used for Python values kept
in metadata dictionaries). -/
inductive Yaml where
  | null
  | bool (b : Bool)
  | int (n : Int)
  | str (s : List Char)
  | list (xs : List Yaml)
  | map (kvs : List (List Char × Yaml))
deriving Repr

/-- The Python exceptions the modelled code can raise. -/
inductive PyExc where
  | attributeError
  | typeError
deriving Repr, DecidableEq

/-- Python truthiness of a `Yaml` value (`if not x`, `x or y`). -/
def pyTruthy : Yaml → Bool
  | .null => false
  | .bool b => b
  | .int n => decide (n ≠ 0)
  | .str s => decide (s ≠ [])
  | .list xs => match xs with | [] => false | _ => true
  | .map m => match m with | [] => false | _ => true

/-- Python `dict.get(k)` on an association list (`None` ↦ `none`). -/
def assocGet (m : List (List Char × Yaml)) (k : List Char) : Option Yaml :=
  match m.find? (fun kv => decide (kv.1 = k)) with
  | some kv => some kv.2
  | none => none

/-- Python `dict.get(k)` when the result is truthy, else `none` (helper for stating
the fallback order of title/category resolution). -/
def truthyGet (m : List (List Char × Yaml)) (k : List Char) : Option Yaml :=
  match assocGet m k with
  | some t => if pyTruthy t then some t else none
  | none => none

/-! ## Frontmatter and heading regexes -/

/-- First index at which `pat` occurs as a sublist, if any. -/
def findSub (pat : List Char) : List Char → Option Nat
  | [] => if pat.isPrefixOf [] then some 0 else none
  | c :: rest =>
    if pat.isPrefixOf (c :: rest) then some 0
    else (findSub pat rest).map Nat.succ

/-- Model of `FRONTMATTER_PATTERN.match(content)` for
`re.compile(r'^---\n(.*?)\n---\n?', re.DOTALL)`: returns the YAML body
(group 1) and the text after the match end.  The non-greedy group means the
first occurrence of `"\n---"` after the opening delimiter closes the block;
the optional trailing newline is consumed when present. -/
def frontmatterMatch (content : List Char) : Option (List Char × List Char) :=
  match content with
  | '-' :: '-' :: '-' :: '\n' :: rest =>
    match findSub ['\n', '-', '-', '-'] rest with
    | none => none
    | some i =>
      let after := rest.drop (i + 4)
      let body := match after with
        | '\n' :: t => t
        | _ => after
      some (rest.take i, body)
  | _ => none

/-- Lines 67-78 of indexer.py: extract frontmatter.  Returns the effective
`metadata` value and `body`.  On a `safeLoad` failure both keep their
initial values (`{}` and the whole content); on success the metadata is
`safe_load(...) or {}` and the body is the content after the match. -/
def frontmatterStep (safeLoad : List Char → Except Unit Yaml)
    (content : List Char) : Yaml × List Char :=
  match frontmatterMatch content with
  | none => (.map [], content)
  | some (g, body) =>
    match safeLoad g with
    | .error _ => (.map [], content)
    | .ok y => (if pyTruthy y then y else .map [], body)

/-- Matching `\s+(.+)$` (MULTILINE, no DOTALL) against the text `R` that
follows a `'#'` at a line start: the backtracking engine succeeds with the
largest whitespace-run length `m` (at most the maximal run, at least 1) such
that the character at position `m` exists and is not a newline; the group is
then the run of non-newline characters from position `m`. -/
def matchHeadingAt (R : List Char) : Option (List Char) :=
  let W := (R.takeWhile pyWs).length
  let rec tryM : Nat → Option (List Char)
    | 0 => none
    | m + 1 =>
      match R.drop (m + 1) with
      | c :: _ =>
        if c ≠ '\n' then some ((R.drop (m + 1)).takeWhile (fun x => decide (x ≠ '\n')))
        else tryM m
      | [] => tryM m
  tryM W

/-- Model of `HEADING_PATTERN.search(body)` for
`re.compile(r'^#\s+(.+)$', re.MULTILINE)`: scan the line starts of the text
for the first full match, returning group 1.  `atStart` is true at position
0 and after each newline. -/
def findHeadingAux : Bool → List Char → Option (List Char)
  | _, [] => none
  | atStart, c :: rest =>
    if atStart ∧ c = '#' then
      match matchHeadingAt rest with
      | some g => some g
      | none => findHeadingAux (c = '\n') rest
    else findHeadingAux (c = '\n') rest

/-- First level-1 markdown heading text found anywhere in the body. -/
def findHeading (body : List Char) : Option (List Char) :=
  findHeadingAux true body

/-! ## Path handling (`pathlib.PurePosixPath`) -/

/-- Python `Path(p).parts` for a POSIX path: split on `/`, dropping empty segments
and single dots; an absolute path contributes a leading root part. -/
def pathParts (p : List Char) : List (List Char) :=
  let comps := (splitOnChar '/' p).filter
    (fun s => decide (s ≠ []) && decide (s ≠ ['.']))
  match p with
  | '/' :: _ => ['/'] :: comps
  | _ => comps

/-- Python `Path(p).stem`: the final path component without its last suffix
(a suffix needs a dot at an interior position, pathlib's
`0 < i < len(name) - 1`). -/
def pathStem (p : List Char) : List Char :=
  let name := (pathParts p).getLastD []
  match name.reverse.findIdx? (fun c => decide (c = '.')) with
  | none => name
  | some r =>
    let i := name.length - 1 - r
    if 0 < i ∧ i < name.length - 1 then name.take i else name

/-- Python `str.title()` (ASCII): the first letter of each alphabetic run is
uppercased, the following letters lowercased, other characters unchanged. -/
def pyTitleAux : Bool → List Char → List Char
  | _, [] => []
  | prevCased, c :: rest =>
    if c.isAlpha then
      (if prevCased then c.toLower else c.toUpper) :: pyTitleAux true rest
    else c :: pyTitleAux false rest

/-- Line 88 of indexer.py:
`Path(path).stem.replace("-", " ").replace("_", " ").title()`. -/
def filenameTitle (path : List Char) : List Char :=
  pyTitleAux false
    ((pathStem path).map (fun c => if c = '-' ∨ c = '_' then ' ' else c))

/-! ## `VaultIndexer.parse_markdown` -/

/-- The `ParsedDocument` dataclass of indexer.py.  `title`, `category`,
`tags` and `metadata` are Python values (`Yaml`); `category` is `.null` when
Python would hold `None`. -/
structure ParsedDoc where
  path : List Char
  title : Yaml
  content : List Char
  category : Yaml
  tags : Yaml
  metadata : Yaml
deriving Repr

/-- Lines 80-88: title from frontmatter `title` if truthy, else first
level-1 heading (stripped), else filename-derived fallback. -/
def resolveTitle (m : List (List Char × Yaml)) (body path : List Char) : Yaml :=
  match assocGet m (str "title") with
  | some t =>
    if pyTruthy t then t
    else
      match findHeading body with
      | some g => .str (strip g)
      | none => .str (filenameTitle path)
  | none =>
    match findHeading body with
    | some g => .str (strip g)
    | none => .str (filenameTitle path)

/-- Lines 90-95: category from frontmatter `category` if truthy, else the
first path segment when the path has more than one part, else the original
falsy value (`None` when the key is absent). -/
def resolveCategory (m : List (List Char × Yaml)) (path : List Char) : Yaml :=
  let c := (assocGet m (str "category")).getD .null
  if pyTruthy c then c
  else if 1 < (pathParts path).length then .str ((pathParts path).headD [])
  else c

/-- Lines 97-100: tags from frontmatter `tags` (default `[]`); a string is
split on commas and each piece stripped; any other value is kept as is. -/
def resolveTags (m : List (List Char × Yaml)) : Yaml :=
  let t := (assocGet m (str "tags")).getD (.list [])
  match t with
  | .str s => .list ((splitOnChar ',' s).map (fun x => .str (strip x)))
  | _ => t

/-- Model of `VaultIndexer.parse_markdown` (indexer.py lines 56-112).  When the
effective metadata is not a mapping (a truthy non-dict `safe_load` result),
`metadata.get("title")` raises `AttributeError`, modelled as `.error`. -/
def parse_markdown (safeLoad : List Char → Except Unit Yaml)
    (content path : List Char) : Except PyExc ParsedDoc :=
  let fs := frontmatterStep safeLoad content
  match fs.1 with
  | .map m =>
    .ok { path := path
          title := resolveTitle m fs.2 path
          content := strip fs.2
          category := resolveCategory m path
          tags := resolveTags m
          metadata := .map m }
  | _ => .error .attributeError

/-! ## `hashlib.md5` (RFC 1321), used for document identifiers -/

/-- UTF-8 encoding of one character (`str.encode()`). -/
def utf8Char (c : Char) : List Nat :=
  let n := c.toNat
  if n < 128 then [n]
  else if n < 2048 then [192 + n / 64, 128 + n % 64]
  else if n < 65536 then [224 + n / 4096, 128 + n / 64 % 64, 128 + n % 64]
  else [240 + n / 262144, 128 + n / 4096 % 64, 128 + n / 64 % 64, 128 + n % 64]

/-- Python `str.encode()`: UTF-8 bytes of a text. -/
def utf8Encode (s : List Char) : List Nat := s.flatMap utf8Char

/-- The 64 MD5 sine-derived round constants. -/
def md5K : List Nat :=
  [0xd76aa478, 0xe8c7b756, 0x242070db, 0xc1bdceee,
   0xf57c0faf, 0x4787c62a, 0xa8304613, 0xfd469501,
   0x698098d8, 0x8b44f7af, 0xffff5bb1, 0x895cd7be,
   0x6b901122, 0xfd987193, 0xa679438e, 0x49b40821,
   0xf61e2562, 0xc040b340, 0x265e5a51, 0xe9b6c7aa,
   0xd62f105d, 0x02441453, 0xd8a1e681, 0xe7d3fbc8,
   0x21e1cde6, 0xc33707d6, 0xf4d50d87, 0x455a14ed,
   0xa9e3e905, 0xfcefa3f8, 0x676f02d9, 0x8d2a4c8a,
   0xfffa3942, 0x8771f681, 0x6d9d6122, 0xfde5380c,
   0xa4beea44, 0x4bdecfa9, 0xf6bb4b60, 0xbebfbc70,
   0x289b7ec6, 0xeaa127fa, 0xd4ef3085, 0x04881d05,
   0xd9d4d039, 0xe6db99e5, 0x1fa27cf8, 0xc4ac5665,
   0xf4292244, 0x432aff97, 0xab9423a7, 0xfc93a039,
   0x655b59c3, 0x8f0ccc92, 0xffeff47d, 0x85845dd1,
   0x6fa87e4f, 0xfe2ce6e0, 0xa3014314, 0x4e0811a1,
   0xf7537e82, 0xbd3af235, 0x2ad7d2bb, 0xeb86d391]

/-- The MD5 per-round left-rotation amounts. -/
def md5S : List Nat :=
  [7, 12, 17, 22, 7, 12, 17, 22, 7, 12, 17, 22, 7, 12, 17, 22,
   5, 9, 14, 20, 5, 9, 14, 20, 5, 9, 14, 20, 5, 9, 14, 20,
   4, 11, 16, 23, 4, 11, 16, 23, 4, 11, 16, 23, 4, 11, 16, 23,
   6, 10, 15, 21, 6, 10, 15, 21, 6, 10, 15, 21, 6, 10, 15, 21]

/-- Bitwise complement on 32 bits (operands kept below `2 ^ 32`). -/
def not32 (x : Nat) : Nat := 4294967295 - x

/-- Left rotation of a 32-bit word by `s` places. -/
def rotl32 (x s : Nat) : Nat :=
  x % 2 ^ (32 - s) * 2 ^ s + x / 2 ^ (32 - s)

/-- The MD5 round function for round `i`. -/
def md5F (i b c d : Nat) : Nat :=
  if i < 16 then b &&& c ||| not32 b &&& d
  else if i < 32 then d &&& b ||| not32 d &&& c
  else if i < 48 then b ^^^ c ^^^ d
  else c ^^^ (b ||| not32 d)

/-- The MD5 message-word index for round `i`. -/
def md5G (i : Nat) : Nat :=
  if i < 16 then i
  else if i < 32 then (5 * i + 1) % 16
  else if i < 48 then (3 * i + 5) % 16
  else 7 * i % 16

/-- One MD5 round on state `(a, b, c, d)` with message words `w`. -/
def md5Step (w : List Nat) (st : Nat × Nat × Nat × Nat) (i : Nat) :
    Nat × Nat × Nat × Nat :=
  let (a, b, c, d) := st
  let f := (md5F i b c d + a + md5K.getD i 0 + w.getD (md5G i) 0) % 4294967296
  (d, (b + rotl32 f (md5S.getD i 0)) % 4294967296, b, c)

/-- Decode a 64-byte block into 16 little-endian 32-bit words. -/
def md5Words : List Nat → List Nat
  | b0 :: b1 :: b2 :: b3 :: rest =>
    (b0 + 256 * b1 + 65536 * b2 + 16777216 * b3) :: md5Words rest
  | _ => []

/-- Compress one 64-byte block into the running MD5 state. -/
def md5Block (st : Nat × Nat × Nat × Nat) (block : List Nat) :
    Nat × Nat × Nat × Nat :=
  let w := md5Words block
  let r := (List.range 64).foldl (md5Step w) st
  ((st.1 + r.1) % 4294967296, (st.2.1 + r.2.1) % 4294967296,
   (st.2.2.1 + r.2.2.1) % 4294967296, (st.2.2.2 + r.2.2.2) % 4294967296)

/-- The low `k` bytes of `n`, little endian. -/
def leBytes : Nat → Nat → List Nat
  | 0, _ => []
  | k + 1, n => n % 256 :: leBytes k (n / 256)

/-- MD5 padding: a `0x80` byte, zeros to 56 mod 64, then the bit length as
eight little-endian bytes. -/
def md5Pad (msg : List Nat) : List Nat :=
  let z := (119 - msg.length % 64) % 64
  msg ++ 128 :: List.replicate z 0 ++ leBytes 8 (8 * msg.length % 2 ^ 64)

/-- Split a padded message into 64-byte blocks (`k` counts down within the
current block, `acc` holds its bytes in reverse). -/
def md5Blocks : List Nat → List Nat → Nat → List (List Nat)
  | [], acc, _ => if acc.isEmpty then [] else [acc.reverse]
  | b :: rest, acc, k =>
    if k ≤ 1 then (b :: acc).reverse :: md5Blocks rest [] 64
    else md5Blocks rest (b :: acc) (k - 1)

/-- Lowercase hex digit. -/
def hexDigit (n : Nat) : Char := (str "0123456789abcdef").getD n '0'

/-- Two lowercase hex digits of a byte. -/
def byteHex (b : Nat) : List Char := [hexDigit (b / 16), hexDigit (b % 16)]

/-- Python `hashlib.md5(bytes).hexdigest()`: the 32-character lowercase hex MD5
digest of a byte sequence. -/
def md5hex (msg : List Nat) : List Char :=
  let st := (md5Blocks (md5Pad msg) [] 64).foldl md5Block
    (0x67452301, 0xefcdab89, 0x98badcfe, 0x10325476)
  (leBytes 4 st.1 ++ leBytes 4 st.2.1 ++ leBytes 4 st.2.2.1 ++
    leBytes 4 st.2.2.2).flatMap byteHex

/-! ## ChromaDB collection model and the service endpoints (main.py) -/

/-- One stored index entry: embedding vector, metadata mapping, raw text. -/
structure Entry where
  embedding : List ℚ
  metadata : List (List Char × Yaml)
  document : List Char

/-- The ChromaDB collection: an association list keyed by document id. -/
abbrev Collection := List (List Char × Entry)

/-- ChromaDB `collection.upsert`: replace the entry for the id in place if present,
else append a new entry. -/
def colUpsert (col : Collection) (id : List Char) (e : Entry) : Collection :=
  if col.any (fun kv => decide (kv.1 = id)) then
    col.map (fun kv => if kv.1 = id then (id, e) else kv)
  else col ++ [(id, e)]

/-- ChromaDB `collection.count()`. -/
def colCount (col : Collection) : Nat := List.length col

/-- ChromaDB `collection.delete(ids=[id])`: a no-op for an absent id. -/
def colDelete (col : Collection) (id : List Char) : Collection :=
  col.filter (fun kv => decide (kv.1 ≠ id))

/-- Python dict assignment `d[k] = v`: override in place or append. -/
def dictSet (d : List (List Char × Yaml)) (k : List Char) (v : Yaml) :
    List (List Char × Yaml) :=
  if d.any (fun kv => decide (kv.1 = k)) then
    d.map (fun kv => if kv.1 = k then (k, v) else kv)
  else d ++ [(k, v)]

/-- Python dict spread `{**d, **ext}` after the literal keys of `d`. -/
def dictUpdate (d ext : List (List Char × Yaml)) : List (List Char × Yaml) :=
  ext.foldl (fun acc kv => dictSet acc kv.1 kv.2) d

/-- Python `",".join(tags)`: raises `TypeError` unless every element is a string. -/
def joinStrs : List Yaml → Except PyExc (List Char)
  | [] => .ok []
  | [.str s] => .ok s
  | .str s :: x :: rest => (joinStrs (x :: rest)).map (fun r => s ++ ',' :: r)
  | _ => .error .typeError

/-- Python `",".join(doc.tags)` on a value: only a list of strings joins. -/
def joinTags : Yaml → Except PyExc (List Char)
  | .list xs => joinStrs xs
  | _ => .error .typeError

/-- A failure inside the per-document pipeline: a raised Python exception,
a file read error, or an embedding failure. -/
inductive OpError where
  | pyError (e : PyExc)
  | readError (msg : List Char)
  | encodeError (msg : List Char)
deriving Repr

/-- The response of the `/index` endpoint (success case). -/
structure IndexResponse where
  path : List Char
  doc_id : List Char
  title : Yaml

/-- Lines 215-243 of main.py, everything before the upsert: parse the
document, derive `doc_id = hashlib.md5(path.encode()).hexdigest()`, embed
the content (`encode` models the sentence-transformers model and may fail),
and build the metadata mapping (`now` models `datetime.utcnow().isoformat()`,
`extra` the caller-supplied `request.metadata or {}`). -/
def buildEntry (safeLoad : List Char → Except Unit Yaml)
    (encode : List Char → Except (List Char) (List ℚ)) (now : List Char)
    (path content : List Char) (extra : List (List Char × Yaml)) :
    Except OpError (List Char × Entry × IndexResponse) :=
  match parse_markdown safeLoad content path with
  | .error e => .error (.pyError e)
  | .ok doc =>
    let doc_id := md5hex (utf8Encode path)
    match encode doc.content with
    | .error m => .error (.encodeError m)
    | .ok emb =>
      let md0 := dictUpdate
        [(str "path", .str path),
         (str "title", doc.title),
         (str "category", if pyTruthy doc.category then doc.category
                          else .str (str "uncategorized")),
         (str "indexed_at", .str now)] extra
      if pyTruthy doc.tags then
        match joinTags doc.tags with
        | .error e => .error (.pyError e)
        | .ok t =>
          .ok (doc_id, ⟨emb, dictSet md0 (str "tags") (.str t), doc.content⟩,
            ⟨path, doc_id, doc.title⟩)
      else .ok (doc_id, ⟨emb, md0, doc.content⟩, ⟨path, doc_id, doc.title⟩)

/-- The `/index` endpoint `index_document` (main.py lines 208-255): build
the entry, upsert it into the collection, and report `path`, `doc_id` and
`title`; any exception becomes an HTTP 500, modelled as `.error`. -/
def index_document (safeLoad : List Char → Except Unit Yaml)
    (encode : List Char → Except (List Char) (List ℚ)) (now : List Char)
    (col : Collection) (path content : List Char)
    (extra : List (List Char × Yaml)) :
    Except OpError (Collection × IndexResponse) :=
  (buildEntry safeLoad encode now path content extra).map
    (fun r => (colUpsert col r.1 r.2.1, r.2.2))

/-- A markdown file met by the vault sweep: its path relative to the vault
root and the result of `read_text` (which may raise). -/
structure VaultFile where
  path : List Char
  readResult : Except (List Char) (List Char)

/-- The body of the per-file `try` block of `index_entire_vault` (main.py
lines 329-355): read, parse, derive `md5(relative_path)`, embed, build
metadata (no caller extras), and produce the entry to upsert. -/
def indexOneFile (safeLoad : List Char → Except Unit Yaml)
    (encode : List Char → Except (List Char) (List ℚ)) (now : List Char)
    (f : VaultFile) : Except OpError (List Char × Entry) :=
  match f.readResult with
  | .error m => .error (.readError m)
  | .ok content =>
    match parse_markdown safeLoad content f.path with
    | .error e => .error (.pyError e)
    | .ok doc =>
      let doc_id := md5hex (utf8Encode f.path)
      match encode doc.content with
      | .error m => .error (.encodeError m)
      | .ok emb =>
        let md0 :=
          [(str "path", .str f.path),
           (str "title", doc.title),
           (str "category", if pyTruthy doc.category then doc.category
                            else .str (str "uncategorized")),
           (str "indexed_at", .str now)]
        if pyTruthy doc.tags then
          match joinTags doc.tags with
          | .error e => .error (.pyError e)
          | .ok t => .ok (doc_id, ⟨emb, dictSet md0 (str "tags") (.str t),
              doc.content⟩)
        else .ok (doc_id, ⟨emb, md0, doc.content⟩)

/-- The `for md_file in md_files` loop of `index_entire_vault` (main.py
lines 328-358): on success upsert the entry and count the file, on any
failure record `{file, error}` and continue with the remaining files. -/
def sweepLoop (safeLoad : List Char → Except Unit Yaml)
    (encode : List Char → Except (List Char) (List ℚ)) (now : List Char) :
    List VaultFile → Collection → Nat → List (List Char × OpError) →
    Collection × Nat × List (List Char × OpError)
  | [], col, n, errs => (col, n, errs)
  | f :: rest, col, n, errs =>
    match indexOneFile safeLoad encode now f with
    | .ok (id, e) => sweepLoop safeLoad encode now rest (colUpsert col id e) (n + 1) errs
    | .error err => sweepLoop safeLoad encode now rest col n (errs ++ [(f.path, err)])

/-- The `/index-vault` endpoint `index_entire_vault` (main.py lines
312-367): sweep all markdown files starting from `indexed = 0` and an empty
errors list.  Returns the final collection, the indexed count, and the
errors list. -/
def index_entire_vault (safeLoad : List Char → Except Unit Yaml)
    (encode : List Char → Except (List Char) (List ℚ)) (now : List Char)
    (files : List VaultFile) (col : Collection) :
    Collection × Nat × List (List Char × OpError) :=
  sweepLoop safeLoad encode now files col 0 []

/-- The `/document/{path}` DELETE endpoint (main.py lines 370-382):
`doc_id = hashlib.md5(path.encode()).hexdigest()`, then delete that id.
Returns the new collection and the reported `doc_id`. -/
def delete_document (col : Collection) (path : List Char) :
    Collection × List Char :=
  let doc_id := md5hex (utf8Encode path)
  (colDelete col doc_id, doc_id)

/-! ## `EmbeddingModel.similarity` (embeddings.py lines 84-107)

Vectors are modelled over `ℚ` (exact arithmetic in place of floats);
`np.linalg.norm` is `sqrt (Σ xᵢ²)` for an abstract square root parameter. -/

/-- Numpy `np.dot` of two (flattened) vectors. -/
def dot (a b : List ℚ) : ℚ := (List.zipWith (· * ·) a b).sum

/-- The sum of squares of a vector, so that `np.linalg.norm a = sqrt (sumSq a)`. -/
def sumSq (a : List ℚ) : ℚ := (a.map (fun x => x * x)).sum

/-- Model of `EmbeddingModel.similarity`: cosine similarity, returning `0.0` when
either computed norm is zero, else `dot / (norm1 * norm2)`. -/
def similarity (sqrt : ℚ → ℚ) (e1 e2 : List ℚ) : ℚ :=
  let dp := dot e1 e2
  let n1 := sqrt (sumSq e1)
  let n2 := sqrt (sumSq e2)
  if n1 = 0 ∨ n2 = 0 then 0 else dp / (n1 * n2)

/-! ## Helper lemmas about `strip` -/

theorem strip_eq_rdrop (l : List Char) :
    strip l = List.rdropWhile pyWs (l.dropWhile pyWs) := rfl

theorem dropWhile_rdropWhile_dropWhile (l : List Char) :
    List.dropWhile pyWs (List.rdropWhile pyWs (l.dropWhile pyWs)) =
      List.rdropWhile pyWs (l.dropWhile pyWs) := by
  apply List.dropWhile_eq_self_iff.mpr
  intro hl
  have hpre := List.rdropWhile_prefix pyWs (l.dropWhile pyWs)
  have h0 : (List.rdropWhile pyWs (l.dropWhile pyWs)).get ⟨0, hl⟩ =
      (l.dropWhile pyWs).get ⟨0, lt_of_lt_of_le hl hpre.length_le⟩ :=
    hpre.get_eq hl
  rw [h0]
  exact List.dropWhile_get_zero_not pyWs l _

theorem strip_idem (l : List Char) : strip (strip l) = strip l := by
  rw [strip_eq_rdrop l, strip_eq_rdrop, dropWhile_rdropWhile_dropWhile,
    List.rdropWhile_idempotent]

theorem strip_length_le (l : List Char) : (strip l).length ≤ l.length := by
  rw [strip_eq_rdrop]
  have h1 := List.rdropWhile_prefix pyWs (l.dropWhile pyWs)
  have h2 : List.dropWhile pyWs l <:+ l := List.dropWhile_suffix pyWs
  exact le_trans h1.length_le h2.length_le

/-! ## Claim C6: short documents are never split -/

/-- C6: for every document with `len(content) <= chunk_size`,
`chunk_document` returns exactly the one-element sequence `[content]`. -/
theorem chunk_document_short (cs : Nat) (content : List Char)
    (h : content.length ≤ cs) : chunk_document cs content = [content] := by
  simp [chunk_document, h]

/-- Witness for C6 at a concrete input. -/
theorem chunk_document_short_witness :
    (str "hi").length ≤ 500 ∧ chunk_document 500 (str "hi") = [str "hi"] :=
  ⟨by decide, chunk_document_short 500 (str "hi") (by decide)⟩

/-! ## Claim C1: `parse_markdown` on a non-mapping frontmatter value -/

/-- Models `yaml.safe_load` on the single frontmatter body `"hello"`, which
standard YAML parses to the scalar string `"hello"` (a truthy non-mapping). -/
def yamlScalarDemo : List Char → Except Unit Yaml := fun s =>
  if s = str "hello" then .ok (.str (str "hello")) else .error ()

/-- C1 (code bug): on frontmatter whose YAML body parses to a truthy
non-mapping value, `parse_markdown` raises `AttributeError` at
`metadata.get("title")` instead of degrading gracefully, contradicting the
never-fails contract. -/
theorem parse_markdown_nonmapping_raises :
    parse_markdown yamlScalarDemo (str "---\nhello\n---\nbody")
      (str "note.md") = .error .attributeError := by rfl

/-! ## Claim C3: the sentence loop inherits a stale buffer -/

/-- C3 (code bug): with `chunk_size = 10` and content
`"aaa\n\nbb. cc. dd. ee"`, the source flushes `"aaa"` but does not reset the
buffer before the sentence loop, so the flushed text is merged again into
the next chunk (`"aaa bb."`); the spec's algorithm (`chunkSpec`), whose new
buffer starts with exactly the overflowing sentence, produces
`["aaa", "bb. cc.", "dd. ee"]` instead. -/
theorem chunk_document_stale_buffer :
    chunk_document 10 (str "aaa\n\nbb. cc. dd. ee") =
        [str "aaa", str "aaa bb.", str "cc. dd. ee"] ∧
      chunkSpec 10 (str "aaa\n\nbb. cc. dd. ee") =
        [str "aaa", str "bb. cc.", str "dd. ee"] ∧
      chunk_document 10 (str "aaa\n\nbb. cc. dd. ee") ≠
        chunkSpec 10 (str "aaa\n\nbb. cc. dd. ee") :=
  ⟨by decide, by decide, by decide⟩

/-! ## Claim C4, counterexample part: the empty document -/

/-- Counterexample to C4 as stated: an empty document (for instance the
parse of an empty file) is returned as the single chunk `""`, which is empty
after trimming. -/
theorem chunk_document_empty_chunk :
    (parse_markdown (fun _ => .error ()) (str "") (str "x.md")).map
        ParsedDoc.content = .ok [] ∧
      chunk_document 500 [] = [[]] ∧
      ([] : List Char) ∈ chunk_document 500 [] ∧ strip [] = ([] : List Char) :=
  ⟨by rfl, by decide, by decide, by rfl⟩

/-! ## Claim C8: cosine similarity -/

theorem dot_self_eq_sumSq (a : List ℚ) : dot a a = sumSq a := by
  induction a with
  | nil => rfl
  | cons x t ih => simp [dot, sumSq] at ih ⊢

/-- C8: `similarity` returns `0.0` whenever either vector has zero L2 norm,
and `similarity a a = 1.0` for every non-zero vector `a`.  The square root
of `np.linalg.norm` is an abstract parameter; the hypotheses state its
defining properties at the two points used (`sqrt 0 = 0` and
`sqrt s * sqrt s = s` on the sum of squares of `a`). -/
theorem similarity_zero_norm_and_self (sqrt : ℚ → ℚ) (a b : List ℚ)
    (h0 : sqrt 0 = 0)
    (hs : sqrt (sumSq a) * sqrt (sumSq a) = sumSq a) :
    ((sumSq a = 0 ∨ sumSq b = 0) → similarity sqrt a b = 0) ∧
      (sumSq a ≠ 0 → similarity sqrt a a = 1) := by
  constructor
  · rintro (h | h) <;> simp [similarity, h, h0]
  · intro h
    have hnz : sqrt (sumSq a) ≠ 0 := fun hz => h (by rw [← hs, hz, mul_zero])
    have hcond : ¬(sqrt (sumSq a) = 0 ∨ sqrt (sumSq a) = 0) :=
      fun hor => hor.elim hnz hnz
    have hu : similarity sqrt a a =
        if sqrt (sumSq a) = 0 ∨ sqrt (sumSq a) = 0 then 0
        else dot a a / (sqrt (sumSq a) * sqrt (sumSq a)) := rfl
    rw [hu, if_neg hcond, dot_self_eq_sumSq, hs]
    exact div_self h

/-- A concrete square root table, defined at the two points the witness
needs (`0` and `1`). -/
def sqrtDemo : ℚ → ℚ := fun x => if x = 1 then 1 else 0

/-- Witness for C8: the non-zero vector `[1]` (sum of squares 1) and a
concrete zero vector `[0]`. -/
theorem similarity_zero_norm_and_self_witness :
    sqrtDemo 0 = 0 ∧
      sqrtDemo (sumSq [(1 : ℚ)]) * sqrtDemo (sumSq [(1 : ℚ)]) =
        sumSq [(1 : ℚ)] ∧
      ((sumSq [(1 : ℚ)] = 0 ∨ sumSq ([0] : List ℚ) = 0) →
        similarity sqrtDemo [(1 : ℚ)] [0] = 0) ∧
      (sumSq [(1 : ℚ)] ≠ 0 → similarity sqrtDemo [(1 : ℚ)] [(1 : ℚ)] = 1) := by
  have h0 : sqrtDemo 0 = 0 := by simp [sqrtDemo]
  have hs : sqrtDemo (sumSq [(1 : ℚ)]) * sqrtDemo (sumSq [(1 : ℚ)]) =
      sumSq [(1 : ℚ)] := by simp [sqrtDemo, sumSq]
  exact ⟨h0, hs,
    (similarity_zero_norm_and_self sqrtDemo [(1 : ℚ)] [0] h0 hs).1,
    (similarity_zero_norm_and_self sqrtDemo [(1 : ℚ)] [(1 : ℚ)] h0 hs).2⟩

/-! ## Invariants of the chunking loops (for C4 and C5)

`okChunk` is the invariant of every emitted chunk: non-empty, already
stripped, and either within the size bound or an atomic sentence from the
pool `S`.  `okBuf` is the invariant of the running buffer. -/

def okChunk (cs : Nat) (S : List (List Char)) (c : List Char) : Prop :=
  c ≠ [] ∧ strip c = c ∧ (c.length ≤ cs ∨ c ∈ S)

def okBuf (cs : Nat) (S : List (List Char)) (cc : List Char) : Prop :=
  strip cc = cc ∧ (cc.length ≤ cs ∨ cc ∈ S)

theorem pushChunk_ok {cs : Nat} {S chunks : List (List Char)} {cc : List Char}
    (hcc : okBuf cs S cc) (hchunks : ∀ x ∈ chunks, okChunk cs S x) :
    ∀ x ∈ pushChunk chunks cc, okChunk cs S x := by
  intro x hx
  unfold pushChunk at hx
  by_cases hnil : cc = []
  · rw [if_pos hnil] at hx
    exact hchunks x hx
  · rw [if_neg hnil] at hx
    rcases List.mem_append.mp hx with h | h
    · exact hchunks x h
    · have hxe : x = cc := by
        rw [List.mem_singleton.mp h, hcc.1]
      rw [hxe]
      exact ⟨hnil, hcc.1, hcc.2⟩

theorem split_sentences_mem {t x : List Char} (hx : x ∈ split_sentences t) :
    strip x = x ∧ x ≠ [] := by
  unfold split_sentences at hx
  have hx' := List.mem_filter.mp hx
  refine ⟨?_, by simpa using hx'.2⟩
  rcases List.mem_map.mp hx'.1 with ⟨y, _, hy⟩
  rw [← hy, strip_idem]

theorem sentLoop_ok {cs : Nat} {S : List (List Char)}
    (sents : List (List Char)) (chunks : List (List Char)) (cc : List Char)
    (hs : ∀ x ∈ sents, x ∈ S ∧ strip x = x)
    (hchunks : ∀ x ∈ chunks, okChunk cs S x) (hcc : okBuf cs S cc) :
    (∀ x ∈ (sentLoop cs chunks cc sents).1, okChunk cs S x) ∧
      okBuf cs S (sentLoop cs chunks cc sents).2 := by
  induction sents generalizing chunks cc with
  | nil => exact ⟨hchunks, hcc⟩
  | cons s rest ih =>
    have hsS := hs s (List.mem_cons_self s rest)
    have hrest : ∀ x ∈ rest, x ∈ S ∧ strip x = x :=
      fun x hx => hs x (List.mem_cons_of_mem s hx)
    by_cases hcond : cs < cc.length + s.length + 1
    · rw [sentLoop, if_pos hcond]
      exact ih _ _ hrest (pushChunk_ok hcc hchunks) ⟨hsS.2, Or.inr hsS.1⟩
    · rw [sentLoop, if_neg hcond]
      refine ih _ _ hrest hchunks ⟨strip_idem _, Or.inl ?_⟩
      calc (strip (cc ++ ' ' :: s)).length
          ≤ (cc ++ ' ' :: s).length := strip_length_le _
        _ = cc.length + s.length + 1 := by
            simp [List.length_append, List.length_cons]; omega
        _ ≤ cs := not_lt.mp hcond

theorem paraLoop_ok {cs : Nat} {S : List (List Char)}
    (ps : List (List Char)) (chunks : List (List Char)) (cc : List Char)
    (hp : ∀ p0 ∈ ps, ∀ x ∈ split_sentences (strip p0), x ∈ S)
    (hchunks : ∀ x ∈ chunks, okChunk cs S x) (hcc : okBuf cs S cc) :
    (∀ x ∈ (paraLoop cs chunks cc ps).1, okChunk cs S x) ∧
      okBuf cs S (paraLoop cs chunks cc ps).2 := by
  induction ps generalizing chunks cc with
  | nil => exact ⟨hchunks, hcc⟩
  | cons p0 rest ih =>
    have hrest : ∀ p ∈ rest, ∀ x ∈ split_sentences (strip p), x ∈ S :=
      fun p hpr => hp p (List.mem_cons_of_mem p0 hpr)
    have hp0 := hp p0 (List.mem_cons_self p0 rest)
    by_cases hnil : strip p0 = []
    · rw [paraLoop]
      simp only [hnil, if_pos]
      exact ih _ _ hrest hchunks hcc
    · by_cases hover : cs < cc.length + (strip p0).length + 2
      · by_cases hlong : cs < (strip p0).length
        · rw [paraLoop]
          simp only [hnil, if_neg, hover, if_pos, hlong]
          have hsent := @sentLoop_ok cs S
            (split_sentences (strip p0)) (pushChunk chunks cc) cc
            (fun x hx => ⟨hp0 x hx, (split_sentences_mem hx).1⟩)
            (pushChunk_ok hcc hchunks) hcc
          exact ih _ _ hrest hsent.1 hsent.2
        · rw [paraLoop]
          simp only [hnil, if_neg, hover, if_pos, hlong]
          exact ih _ _ hrest (pushChunk_ok hcc hchunks)
            ⟨strip_idem _, Or.inl (not_lt.mp hlong)⟩
      · rw [paraLoop]
        simp only [hnil, if_neg, hover]
        refine ih _ _ hrest hchunks ⟨strip_idem _, Or.inl ?_⟩
        calc (strip (cc ++ '\n' :: '\n' :: strip p0)).length
            ≤ (cc ++ '\n' :: '\n' :: strip p0).length := strip_length_le _
          _ = cc.length + (strip p0).length + 2 := by
              simp [List.length_append, List.length_cons]; omega
          _ ≤ cs := not_lt.mp hover

theorem chunk_document_ok (cs : Nat) (content : List Char)
    (h : cs < content.length) :
    ∀ c ∈ chunk_document cs content, okChunk cs (sentPool content) c := by
  intro c hc
  unfold chunk_document at hc
  rw [if_neg (not_le.mpr h)] at hc
  have hp : ∀ p0 ∈ splitParas content,
      ∀ x ∈ split_sentences (strip p0), x ∈ sentPool content := by
    intro p0 hp0 x hx
    unfold sentPool
    exact List.mem_flatMap.mpr ⟨p0, hp0, hx⟩
  have hloop := @paraLoop_ok cs (sentPool content)
    (splitParas content) [] []
    hp (fun x hx => absurd hx (List.not_mem_nil x)) ⟨rfl, Or.inl (Nat.zero_le cs)⟩
  exact pushChunk_ok hloop.2 hloop.1 c hc

theorem pushChunk_eq_append (chunks : List (List Char)) (cc : List Char) :
    pushChunk chunks cc =
      chunks ++ (if cc = [] then [] else [strip cc]) := by
  unfold pushChunk
  by_cases h : cc = [] <;> simp [h]

/-! ## Claim C4 (amended): non-empty trimmed chunks, final buffer flushed -/

/-- C4 as amended: for every document whose content is non-empty after
trimming, every returned chunk is non-empty after trimming (a short
whitespace-only document is returned verbatim as its single chunk, which is
the counterexample to the claim as stated); and for long documents the
result is exactly the chunks emitted by the paragraph scan, in emission
order, with the final partial buffer flushed as the last chunk. -/
theorem chunk_document_nonempty_and_flush (cs : Nat) (content : List Char) :
    (∀ c ∈ chunk_document cs content, strip content ≠ [] → strip c ≠ []) ∧
      (cs < content.length →
        chunk_document cs content =
          (paraLoop cs [] [] (splitParas content)).1 ++
            (if (paraLoop cs [] [] (splitParas content)).2 = [] then []
             else [strip (paraLoop cs [] [] (splitParas content)).2])) := by
  constructor
  · intro c hc hcontent
    by_cases hlen : content.length ≤ cs
    · rw [chunk_document_short cs content hlen] at hc
      rw [List.mem_singleton.mp hc]
      exact hcontent
    · have hok := chunk_document_ok cs content (not_le.mp hlen) c hc
      rw [hok.2.1]
      exact hok.1
  · intro h
    unfold chunk_document
    rw [if_neg (not_le.mpr h), pushChunk_eq_append]

/-- Witness for C4 at concrete inputs: the document `"hi"` is non-empty
after trimming, is returned as a non-empty chunk, and (with
`chunk_size = 1`, making it a long document) the final buffer is flushed. -/
theorem chunk_document_nonempty_and_flush_witness :
    str "hi" ∈ chunk_document 500 (str "hi") ∧
      strip (str "hi") ≠ [] ∧ strip (str "hi") ≠ [] ∧
      1 < (str "hi").length ∧
      chunk_document 1 (str "hi") =
        (paraLoop 1 [] [] (splitParas (str "hi"))).1 ++
          (if (paraLoop 1 [] [] (splitParas (str "hi"))).2 = [] then []
           else [strip (paraLoop 1 [] [] (splitParas (str "hi"))).2]) :=
  ⟨by decide, by decide,
    (chunk_document_nonempty_and_flush 500 (str "hi")).1 (str "hi")
      (by decide) (by decide),
    by decide,
    (chunk_document_nonempty_and_flush 1 (str "hi")).2 (by decide)⟩

/-! ## Claim C5: the size bound with the atomic-sentence exception -/

/-- C5: for every document longer than `chunk_size`, every chunk is within
the size bound, except chunks that are a single atomic sentence (an element
of the sentence split of some paragraph) longer than `chunk_size`. -/
theorem chunk_document_size_bound (cs : Nat) (content : List Char)
    (h : cs < content.length) :
    ∀ c ∈ chunk_document cs content,
      c.length ≤ cs ∨ (cs < c.length ∧ c ∈ sentPool content) := by
  intro c hc
  have hok := chunk_document_ok cs content h c hc
  rcases le_or_lt c.length cs with hle | hgt
  · exact Or.inl hle
  · refine Or.inr ⟨hgt, ?_⟩
    rcases hok.2.2 with hle | hmem
    · exact absurd hle (not_le.mpr hgt)
    · exact hmem

/-- Witness for C5 at the concrete document `"aaa\n\nbb. cc. dd. ee"` with
`chunk_size = 10` and the emitted chunk `"aaa"`. -/
theorem chunk_document_size_bound_witness :
    10 < (str "aaa\n\nbb. cc. dd. ee").length ∧
      str "aaa" ∈ chunk_document 10 (str "aaa\n\nbb. cc. dd. ee") ∧
      ((str "aaa").length ≤ 10 ∨
        (10 < (str "aaa").length ∧
          str "aaa" ∈ sentPool (str "aaa\n\nbb. cc. dd. ee"))) :=
  ⟨by decide, by decide,
    chunk_document_size_bound 10 (str "aaa\n\nbb. cc. dd. ee") (by decide)
      (str "aaa") (by decide)⟩

/-! ## Claim C9: title and category resolution order -/

theorem resolveTitle_eq (m : List (List Char × Yaml)) (body path : List Char) :
    resolveTitle m body path = (truthyGet m (str "title")).getD
      (match findHeading body with
       | some g => .str (strip g)
       | none => .str (filenameTitle path)) := by
  unfold resolveTitle truthyGet
  cases h : assocGet m (str "title") with
  | none => cases hh : findHeading body <;> simp
  | some t =>
    by_cases ht : pyTruthy t
    · simp [ht]
    · cases hh : findHeading body <;> simp [ht]

theorem resolveCategory_eq (m : List (List Char × Yaml)) (path : List Char) :
    resolveCategory m path = (truthyGet m (str "category")).getD
      (if 1 < (pathParts path).length then .str ((pathParts path).headD [])
       else (assocGet m (str "category")).getD .null) := by
  unfold resolveCategory truthyGet
  cases h : assocGet m (str "category") with
  | none => simp [pyTruthy]
  | some t => by_cases ht : pyTruthy t <;> simp [ht]

/-- C9: a successfully parsed document resolves its title as the truthy
frontmatter `title` if present, else the first level-1 heading of the body
(stripped), else the filename-derived fallback; and its category as the
truthy frontmatter `category`, else the first path segment when the path
has more than one part; in particular `parse("no frontmatter here",
"a/b.md")` yields title `"B"` and category `"a"`. -/
theorem parse_markdown_resolution (safeLoad : List Char → Except Unit Yaml)
    (content path : List Char) (doc : ParsedDoc)
    (m : List (List Char × Yaml))
    (hok : parse_markdown safeLoad content path = .ok doc)
    (hm : (frontmatterStep safeLoad content).1 = .map m) :
    (doc.title = (truthyGet m (str "title")).getD
        (match findHeading (frontmatterStep safeLoad content).2 with
         | some g => .str (strip g)
         | none => .str (filenameTitle path))) ∧
      (doc.category = (truthyGet m (str "category")).getD
        (if 1 < (pathParts path).length then .str ((pathParts path).headD [])
         else (assocGet m (str "category")).getD .null)) ∧
      parse_markdown safeLoad (str "no frontmatter here") (str "a/b.md") =
        .ok ⟨str "a/b.md", .str (str "B"), str "no frontmatter here",
          .str (str "a"), .list [], .map []⟩ := by
  have hdoc : doc =
      { path := path
        title := resolveTitle m (frontmatterStep safeLoad content).2 path
        content := strip (frontmatterStep safeLoad content).2
        category := resolveCategory m path
        tags := resolveTags m
        metadata := .map m } := by
    unfold parse_markdown at hok
    simp only [hm] at hok
    exact (Except.ok.inj hok).symm
  refine ⟨?_, ?_, rfl⟩
  · rw [hdoc]
    exact resolveTitle_eq m _ path
  · rw [hdoc]
    exact resolveCategory_eq m path

/-- Witness for C9: the concrete frontmatter-free document of the claim. -/
theorem parse_markdown_resolution_witness :
    parse_markdown (fun _ => .error ()) (str "no frontmatter here")
        (str "a/b.md") =
      .ok ⟨str "a/b.md", .str (str "B"), str "no frontmatter here",
        .str (str "a"), .list [], .map []⟩ :=
  (parse_markdown_resolution (fun _ => .error ())
    (str "no frontmatter here") (str "a/b.md")
    ⟨str "a/b.md", .str (str "B"), str "no frontmatter here",
      .str (str "a"), .list [], .map []⟩ [] rfl rfl).2.2

/-! ## Claim C7: sweep resilience -/

/-- Whether the per-file pipeline succeeds on `f`. -/
def sweepOk (safeLoad : List Char → Except Unit Yaml)
    (encode : List Char → Except (List Char) (List ℚ)) (now : List Char)
    (f : VaultFile) : Bool :=
  match indexOneFile safeLoad encode now f with
  | .ok _ => true
  | .error _ => false

/-- The `{file, error}` record produced for `f`, when its pipeline fails. -/
def sweepErrRecord (safeLoad : List Char → Except Unit Yaml)
    (encode : List Char → Except (List Char) (List ℚ)) (now : List Char)
    (f : VaultFile) : Option (List Char × OpError) :=
  match indexOneFile safeLoad encode now f with
  | .error err => some (f.path, err)
  | .ok _ => none

theorem sweepLoop_spec (safeLoad : List Char → Except Unit Yaml)
    (encode : List Char → Except (List Char) (List ℚ)) (now : List Char)
    (files : List VaultFile) :
    ∀ (col : Collection) (n : Nat) (errs : List (List Char × OpError)),
      (sweepLoop safeLoad encode now files col n errs).2.1 =
          n + (files.filter (sweepOk safeLoad encode now)).length ∧
        (sweepLoop safeLoad encode now files col n errs).2.2 =
          errs ++ files.filterMap (sweepErrRecord safeLoad encode now) := by
  induction files with
  | nil => intro col n errs; simp [sweepLoop]
  | cons f rest ih =>
    intro col n errs
    cases h : indexOneFile safeLoad encode now f with
    | ok r =>
      obtain ⟨id, e⟩ := r
      rw [sweepLoop, h]
      refine ⟨?_, ?_⟩
      · have hb : sweepOk safeLoad encode now f = true := by simp [sweepOk, h]
        rw [(ih _ _ _).1, List.filter_cons, hb, if_pos rfl]
        simp only [List.length_cons]
        omega
      · rw [(ih _ _ _).2, List.filterMap_cons]
        simp [sweepErrRecord, h]
    | error err =>
      rw [sweepLoop, h]
      refine ⟨?_, ?_⟩
      · rw [(ih _ _ _).1, List.filter_cons]
        simp [sweepOk, h]
      · rw [(ih _ _ _).2, List.filterMap_cons]
        simp [sweepErrRecord, h]

theorem sweep_counts_split (safeLoad : List Char → Except Unit Yaml)
    (encode : List Char → Except (List Char) (List ℚ)) (now : List Char)
    (files : List VaultFile) :
    (files.filter (sweepOk safeLoad encode now)).length +
        (files.filterMap (sweepErrRecord safeLoad encode now)).length =
      files.length := by
  induction files with
  | nil => rfl
  | cons f rest ih =>
    rw [List.filter_cons, List.filterMap_cons]
    cases h : indexOneFile safeLoad encode now f <;>
      simp [sweepOk, sweepErrRecord, h] <;> omega

/-- C7: the directory sweep records a `{file, error}` entry for every file
whose pipeline fails (read error, parse crash, or embedding failure) and
continues; the indexed count is the number of successful files, and
`indexed + len(errors) = total files`, for any file list. -/
theorem index_entire_vault_resilience (safeLoad : List Char → Except Unit Yaml)
    (encode : List Char → Except (List Char) (List ℚ)) (now : List Char)
    (files : List VaultFile) (col : Collection) :
    (index_entire_vault safeLoad encode now files col).2.1 =
        (files.filter (sweepOk safeLoad encode now)).length ∧
      (index_entire_vault safeLoad encode now files col).2.2 =
        files.filterMap (sweepErrRecord safeLoad encode now) ∧
      (index_entire_vault safeLoad encode now files col).2.1 +
          (index_entire_vault safeLoad encode now files col).2.2.length =
        files.length := by
  have h := sweepLoop_spec safeLoad encode now files col 0 []
  unfold index_entire_vault
  refine ⟨by rw [h.1]; omega, by rw [h.2]; simp, ?_⟩
  rw [h.1, h.2]
  simp only [List.nil_append, Nat.zero_add]
  exact sweep_counts_split safeLoad encode now files

/-! ## Claim C2: identifier derivation and upsert idempotence -/

theorem colUpsert_mem (col : Collection) (id : List Char) (e : Entry) :
    (colUpsert col id e).any (fun kv => decide (kv.1 = id)) = true := by
  unfold colUpsert
  by_cases h : col.any (fun kv => decide (kv.1 = id))
  · rw [if_pos h]
    rcases List.any_eq_true.mp h with ⟨kv, hkv, hp⟩
    refine List.any_eq_true.mpr
      ⟨(id, e), List.mem_map.mpr ⟨kv, hkv, ?_⟩, by simp⟩
    simp [of_decide_eq_true hp]
  · rw [if_neg h]
    exact List.any_eq_true.mpr
      ⟨(id, e), List.mem_append.mpr (Or.inr (List.mem_singleton.mpr rfl)),
        by simp⟩

theorem colUpsert_count (col : Collection) (id : List Char) (e : Entry) :
    colCount (colUpsert col id e) =
      if col.any (fun kv => decide (kv.1 = id)) then colCount col
      else colCount col + 1 := by
  unfold colUpsert colCount
  by_cases h : col.any (fun kv => decide (kv.1 = id)) <;> simp [h]

theorem colUpsert_twice_count (col : Collection) (id : List Char)
    (e e' : Entry) :
    colCount (colUpsert (colUpsert col id e) id e') =
      colCount (colUpsert col id e) := by
  rw [colUpsert_count, if_pos (colUpsert_mem col id e)]

theorem colUpsert_keys (col : Collection) (id : List Char) (e : Entry)
    (h : col.any (fun kv => decide (kv.1 = id)) = true) :
    (colUpsert col id e).map Prod.fst = col.map Prod.fst := by
  unfold colUpsert
  rw [if_pos h, List.map_map]
  apply List.map_congr_left
  intro kv _
  by_cases hk : kv.1 = id <;> simp [hk]

theorem colUpsert_nodup (col : Collection) (id : List Char) (e : Entry)
    (hnd : (col.map Prod.fst).Nodup) :
    ((colUpsert col id e).map Prod.fst).Nodup := by
  by_cases h : col.any (fun kv => decide (kv.1 = id))
  · rw [colUpsert_keys col id e h]
    exact hnd
  · unfold colUpsert
    rw [if_neg h, List.map_append]
    rw [List.nodup_append]
    refine ⟨hnd, by simp, ?_⟩
    intro a ha hb
    have hane : a = id := by simpa using hb
    rcases List.mem_map.mp ha with ⟨kv, hkv, hfst⟩
    have := List.any_eq_false.mp (Bool.of_not_eq_true h) kv hkv
    simp [hfst ▸ hane ▸ this] at this
    exact this (by rw [hfst, hane])

theorem upsertMap_filter (id : List Char) (e : Entry) (col : Collection)
    (hnd : (col.map Prod.fst).Nodup)
    (h : col.any (fun kv => decide (kv.1 = id)) = true) :
    (col.map (fun kv => if kv.1 = id then (id, e) else kv)).filter
      (fun kv => decide (kv.1 = id)) = [(id, e)] := by
  induction col with
  | nil => simp at h
  | cons kv rest ih =>
    simp only [List.map_cons, List.nodup_cons] at hnd
    by_cases hk : kv.1 = id
    · rw [List.map_cons, if_pos hk, List.filter_cons]
      have hcond : decide ((id, e).1 = id) = true := by simp
      rw [hcond, if_pos rfl]
      have hrest : (rest.map (fun kv => if kv.1 = id then (id, e) else kv)).filter
          (fun kv => decide (kv.1 = id)) = [] := by
        apply List.filter_eq_nil_iff.mpr
        intro x hx
        rcases List.mem_map.mp hx with ⟨y, hy, hxy⟩
        have hyne : y.1 ≠ id := fun hyid =>
          hnd.1 (List.mem_map.mpr ⟨y, hy, by rw [hyid, hk]⟩)
        rw [← hxy]
        simp [hyne]
      rw [hrest]
    · have h' : rest.any (fun kv => decide (kv.1 = id)) = true := by
        rcases List.any_eq_true.mp h with ⟨y, hy, hp⟩
        rcases List.mem_cons.mp hy with rfl | hy'
        · exact absurd (of_decide_eq_true hp) hk
        · exact List.any_eq_true.mpr ⟨y, hy', hp⟩
      rw [List.map_cons, if_neg hk, List.filter_cons]
      have hcond : decide (kv.1 = id) = false := by simp [hk]
      rw [hcond]
      simp only [Bool.false_eq_true, if_false]
      exact ih hnd.2 h'

theorem colUpsert_filter (col : Collection) (id : List Char) (e : Entry)
    (hnd : (col.map Prod.fst).Nodup) :
    (colUpsert col id e).filter (fun kv => decide (kv.1 = id)) = [(id, e)] := by
  unfold colUpsert
  by_cases h : col.any (fun kv => decide (kv.1 = id))
  · rw [if_pos h]
    exact upsertMap_filter id e col hnd h
  · rw [if_neg h, List.filter_append]
    have h1 : col.filter (fun kv => decide (kv.1 = id)) = [] := by
      apply List.filter_eq_nil_iff.mpr
      intro x hx
      exact List.any_eq_false.mp (Bool.of_not_eq_true h) x hx
    rw [h1]
    simp

theorem buildEntry_id (safeLoad : List Char → Except Unit Yaml)
    (encode : List Char → Except (List Char) (List ℚ)) (now : List Char)
    (path content : List Char) (extra : List (List Char × Yaml))
    (r : List Char × Entry × IndexResponse)
    (h : buildEntry safeLoad encode now path content extra = .ok r) :
    r.1 = md5hex (utf8Encode path) ∧
      r.2.2.doc_id = md5hex (utf8Encode path) := by
  unfold buildEntry at h
  repeat' split at h
  all_goals cases h
  all_goals exact ⟨rfl, rfl⟩

theorem indexOneFile_id (safeLoad : List Char → Except Unit Yaml)
    (encode : List Char → Except (List Char) (List ℚ)) (now : List Char)
    (f : VaultFile) (r : List Char × Entry)
    (h : indexOneFile safeLoad encode now f = .ok r) :
    r.1 = md5hex (utf8Encode f.path) := by
  unfold indexOneFile at h
  repeat' split at h
  all_goals cases h
  all_goals rfl

/-- C2: the stored identifier is `md5(path)` — a deterministic function of
the path string alone, identical across `/index` (`buildEntry`), the
directory sweep (`indexOneFile`) and delete-by-path; indexing the same
`(path, content)` twice succeeds with the same `doc_id` and leaves the count
unchanged, and (for a well-formed collection) exactly one entry is stored
under that id.  Two distinct paths receive distinct identifiers exactly
unless `md5hex ∘ utf8Encode` collides on them, which is immediate from the
identifier being that hash of the path. -/
theorem doc_id_derivation_and_idempotence
    (safeLoad : List Char → Except Unit Yaml)
    (encode : List Char → Except (List Char) (List ℚ)) (now : List Char)
    (col : Collection) (path content : List Char)
    (extra : List (List Char × Yaml)) :
    (∀ r, buildEntry safeLoad encode now path content extra = .ok r →
        r.1 = md5hex (utf8Encode path) ∧
          r.2.2.doc_id = md5hex (utf8Encode path)) ∧
      (delete_document col path).2 = md5hex (utf8Encode path) ∧
      (∀ f r, indexOneFile safeLoad encode now f = .ok r →
        r.1 = md5hex (utf8Encode f.path)) ∧
      (∀ col₁ r₁,
        index_document safeLoad encode now col path content extra =
          .ok (col₁, r₁) →
        (index_document safeLoad encode now col₁ path content extra).map
            (fun cr => (colCount cr.1, cr.2.doc_id)) =
          .ok (colCount col₁, r₁.doc_id) ∧
        ((col.map Prod.fst).Nodup →
          (index_document safeLoad encode now col₁ path content extra).map
              (fun cr =>
                (cr.1.filter
                  (fun kv => decide (kv.1 = r₁.doc_id))).length) =
            .ok 1)) := by
  refine ⟨fun r h => buildEntry_id _ _ _ _ _ _ r h, rfl,
    fun f r h => indexOneFile_id _ _ _ f r h, ?_⟩
  intro col₁ r₁ h
  unfold index_document at h ⊢
  cases hb : buildEntry safeLoad encode now path content extra with
  | error e =>
    rw [hb] at h
    have h' : (Except.error e : Except OpError (Collection × IndexResponse)) =
        Except.ok (col₁, r₁) := h
    cases h'
  | ok r =>
    rw [hb] at h
    have h' : Except.ok (colUpsert col r.1 r.2.1, r.2.2) =
        Except.ok (col₁, r₁) := h
    have hpair := Except.ok.inj h'
    have hc : col₁ = colUpsert col r.1 r.2.1 :=
      (congrArg Prod.fst hpair).symm
    have hr : r₁ = r.2.2 := (congrArg Prod.snd hpair).symm
    have hid := buildEntry_id safeLoad encode now path content extra r hb
    constructor
    · show Except.ok (colCount (colUpsert col₁ r.1 r.2.1), r.2.2.doc_id) =
        Except.ok (colCount col₁, r₁.doc_id)
      rw [hc, hr, colUpsert_twice_count]
    · intro hnd
      show Except.ok ((List.filter (fun kv => decide (kv.1 = r₁.doc_id))
          (colUpsert col₁ r.1 r.2.1)).length) = Except.ok 1
      have hdr : r.2.2.doc_id = r.1 := by rw [hid.2, hid.1]
      rw [hc, hr, hdr,
        colUpsert_filter _ _ _ (colUpsert_nodup col r.1 r.2.1 hnd)]
      rfl

/-- Models `yaml.safe_load` failing on every input (never consulted on
frontmatter-free documents). -/
def yamlNever : List Char → Except Unit Yaml := fun _ => .error ()

/-- A concrete stand-in for the sentence-transformers encoder. -/
def encodeDemo : List Char → Except (List Char) (List ℚ) := fun _ => .ok [1]

/-- The digest `hashlib.md5(b"notes/a.md").hexdigest()`. -/
def demoId : List Char := str "ea954c2b61dd5008d0ec4ff2134c03b9"

/-- The entry stored for indexing `("notes/a.md", "hello")` at time `"T"`. -/
def demoEntry : Entry :=
  ⟨[1],
   [(str "path", .str (str "notes/a.md")),
    (str "title", .str (str "A")),
    (str "category", .str (str "notes")),
    (str "indexed_at", .str (str "T"))],
   str "hello"⟩

/-- The response reported for indexing `("notes/a.md", "hello")`. -/
def demoResp : IndexResponse := ⟨str "notes/a.md", demoId, .str (str "A")⟩

set_option maxRecDepth 4000 in
/-- Witness for C2: indexing `("notes/a.md", "hello")` into the empty
collection and then re-indexing it: the second call reports the same
`doc_id`, the count stays 1, and exactly one entry is stored under the id. -/
theorem doc_id_derivation_and_idempotence_witness :
    index_document yamlNever encodeDemo (str "T") [] (str "notes/a.md")
        (str "hello") [] = .ok ([(demoId, demoEntry)], demoResp) ∧
      (index_document yamlNever encodeDemo (str "T") [(demoId, demoEntry)]
          (str "notes/a.md") (str "hello") []).map
          (fun cr => (colCount cr.1, cr.2.doc_id)) =
        .ok (colCount [(demoId, demoEntry)], demoResp.doc_id) ∧
      (index_document yamlNever encodeDemo (str "T") [(demoId, demoEntry)]
          (str "notes/a.md") (str "hello") []).map
          (fun cr =>
            (cr.1.filter
              (fun kv => decide (kv.1 = demoResp.doc_id))).length) =
        .ok 1 := by
  have h : index_document yamlNever encodeDemo (str "T") []
      (str "notes/a.md") (str "hello") [] =
      .ok ([(demoId, demoEntry)], demoResp) := by rfl
  have hmain := (doc_id_derivation_and_idempotence yamlNever encodeDemo
    (str "T") [] (str "notes/a.md") (str "hello") []).2.2.2
    [(demoId, demoEntry)] demoResp h
  exact ⟨h, hmain.1, hmain.2 (by simp)⟩

/-! ## Claim C10: the stored `category` metadata field -/

/-- Whether a Python value is a string. -/
def isYamlStr : Yaml → Bool
  | .str _ => true
  | _ => false

/-- Python `doc.category or "uncategorized"`: the value stored in the `category`
metadata field. -/
def storedCategory (c : Yaml) : Yaml :=
  if pyTruthy c then c else .str (str "uncategorized")

/-- ChromaDB's exact-match `where={"category": flt}` filter on an entry's
metadata. -/
def categoryMatches (flt : List Char) (md : List (List Char × Yaml)) : Prop :=
  assocGet md (str "category") = some (.str flt)

theorem storedCategory_props (c : Yaml) :
    storedCategory c ≠ .null ∧ pyTruthy (storedCategory c) = true ∧
      (pyTruthy c = false → storedCategory c = .str (str "uncategorized")) ∧
      (isYamlStr c = true ∨ c = .null → isYamlStr (storedCategory c) = true) := by
  unfold storedCategory
  by_cases h : pyTruthy c = true
  · rw [if_pos h]
    refine ⟨fun hn => by rw [hn] at h; exact absurd h (by simp [pyTruthy]), h,
      fun hf => absurd h (by simp [hf]), ?_⟩
    rintro (hs | rfl)
    · exact hs
    · exact absurd h (by simp [pyTruthy])
  · rw [if_neg h]
    exact ⟨by simp, by simp [pyTruthy, str], fun _ => rfl, fun _ => rfl⟩

theorem find_map_dictSet (d : List (List Char × Yaml)) (k k' : List Char)
    (v : Yaml) (hne : k' ≠ k) :
    (d.map (fun kv => if kv.1 = k' then (k', v) else kv)).find?
      (fun kv => decide (kv.1 = k)) =
      d.find? (fun kv => decide (kv.1 = k)) := by
  induction d with
  | nil => rfl
  | cons kv rest ih =>
    by_cases hk : kv.1 = k'
    · rw [List.map_cons, if_pos hk,
        List.find?_cons_of_neg _ (by simp [hne]),
        List.find?_cons_of_neg _ (by simp [hk, hne])]
      exact ih
    · rw [List.map_cons, if_neg hk]
      by_cases hkk : kv.1 = k
      · rw [List.find?_cons_of_pos _ (by simp [hkk]),
          List.find?_cons_of_pos _ (by simp [hkk])]
      · rw [List.find?_cons_of_neg _ (by simp [hkk]),
          List.find?_cons_of_neg _ (by simp [hkk])]
        exact ih

theorem dictSet_assocGet_ne (d : List (List Char × Yaml)) (k' k : List Char)
    (v : Yaml) (hne : k' ≠ k) :
    assocGet (dictSet d k' v) k = assocGet d k := by
  unfold dictSet
  by_cases h : d.any (fun kv => decide (kv.1 = k'))
  · rw [if_pos h]
    unfold assocGet
    rw [find_map_dictSet d k k' v hne]
  · rw [if_neg h]
    unfold assocGet
    rw [List.find?_append]
    cases hf : d.find? (fun kv => decide (kv.1 = k)) with
    | some kv => simp
    | none => simp [hne]

theorem dictUpdate_assocGet (ext : List (List Char × Yaml)) (k : List Char)
    (hext : ∀ kv ∈ ext, kv.1 ≠ k) :
    ∀ d, assocGet (dictUpdate d ext) k = assocGet d k := by
  induction ext with
  | nil => intro d; rfl
  | cons kv rest ih =>
    intro d
    have hstep : dictUpdate d (kv :: rest) =
        dictUpdate (dictSet d kv.1 kv.2) rest := rfl
    rw [hstep, ih (fun x hx => hext x (List.mem_cons_of_mem kv hx)),
      dictSet_assocGet_ne d kv.1 k kv.2 (hext kv (List.mem_cons_self kv rest))]

theorem baseMd_category (a b c d : Yaml) :
    assocGet [(str "path", a), (str "title", b), (str "category", c),
      (str "indexed_at", d)] (str "category") = some c := rfl

theorem buildEntry_category (safeLoad : List Char → Except Unit Yaml)
    (encode : List Char → Except (List Char) (List ℚ)) (now : List Char)
    (path content : List Char) (extra : List (List Char × Yaml))
    (r : List Char × Entry × IndexResponse) (doc : ParsedDoc)
    (hext : ∀ kv ∈ extra, kv.1 ≠ str "category")
    (hp : parse_markdown safeLoad content path = .ok doc)
    (h : buildEntry safeLoad encode now path content extra = .ok r) :
    assocGet r.2.1.metadata (str "category") =
      some (storedCategory doc.category) := by
  unfold buildEntry at h
  simp only [hp] at h
  cases he : encode doc.content with
  | error m => simp only [he] at h; cases h
  | ok emb =>
    simp only [he] at h
    by_cases ht : pyTruthy doc.tags = true
    · simp only [ht, if_true] at h
      cases hj : joinTags doc.tags with
      | error e => simp only [hj] at h; cases h
      | ok t =>
        simp only [hj] at h
        cases h
        show assocGet (dictSet (dictUpdate
          [(str "path", .str path), (str "title", doc.title),
           (str "category", if pyTruthy doc.category then doc.category
             else .str (str "uncategorized")),
           (str "indexed_at", .str now)] extra) (str "tags") (.str t))
          (str "category") = some (storedCategory doc.category)
        rw [dictSet_assocGet_ne _ _ _ _ (by decide),
          dictUpdate_assocGet extra (str "category") hext,
          baseMd_category]
        rfl
    · rw [Bool.not_eq_true] at ht
      simp only [ht, Bool.false_eq_true, if_false] at h
      cases h
      show assocGet (dictUpdate
        [(str "path", .str path), (str "title", doc.title),
         (str "category", if pyTruthy doc.category then doc.category
           else .str (str "uncategorized")),
         (str "indexed_at", .str now)] extra) (str "category") =
        some (storedCategory doc.category)
      rw [dictUpdate_assocGet extra (str "category") hext, baseMd_category]
      rfl

theorem indexOneFile_category (safeLoad : List Char → Except Unit Yaml)
    (encode : List Char → Except (List Char) (List ℚ)) (now : List Char)
    (f : VaultFile) (r : List Char × Entry) (content : List Char)
    (doc : ParsedDoc)
    (hread : f.readResult = .ok content)
    (hp : parse_markdown safeLoad content f.path = .ok doc)
    (h : indexOneFile safeLoad encode now f = .ok r) :
    assocGet r.2.metadata (str "category") =
      some (storedCategory doc.category) := by
  unfold indexOneFile at h
  simp only [hread, hp] at h
  cases he : encode doc.content with
  | error m => simp only [he] at h; cases h
  | ok emb =>
    simp only [he] at h
    by_cases ht : pyTruthy doc.tags = true
    · simp only [ht, if_true] at h
      cases hj : joinTags doc.tags with
      | error e => simp only [hj] at h; cases h
      | ok t =>
        simp only [hj] at h
        cases h
        show assocGet (dictSet
          [(str "path", .str f.path), (str "title", doc.title),
           (str "category", if pyTruthy doc.category then doc.category
             else .str (str "uncategorized")),
           (str "indexed_at", .str now)] (str "tags") (.str t))
          (str "category") = some (storedCategory doc.category)
        rw [dictSet_assocGet_ne _ _ _ _ (by decide), baseMd_category]
        rfl
    · rw [Bool.not_eq_true] at ht
      simp only [ht, Bool.false_eq_true, if_false] at h
      cases h
      show assocGet
        [(str "path", .str f.path), (str "title", doc.title),
         (str "category", if pyTruthy doc.category then doc.category
           else .str (str "uncategorized")),
         (str "indexed_at", .str now)] (str "category") =
        some (storedCategory doc.category)
      rw [baseMd_category]
      rfl

/-- C10 as amended: every entry written by `/index` or the sweep carries a
present `category` field holding `doc.category or "uncategorized"` — a
truthy, never-null value, equal to the literal string `"uncategorized"`
exactly when the parsed category is absent or falsy (in which case the entry
is matched by an exact-match category filter of `"uncategorized"`), and a
string whenever the parsed category is a string or absent — provided the
caller-supplied extra metadata does not itself override `category` (the
stored value is a non-string for a truthy non-string frontmatter category,
the counterexample to the claim as stated). -/
theorem stored_category_always_present
    (safeLoad : List Char → Except Unit Yaml)
    (encode : List Char → Except (List Char) (List ℚ)) (now : List Char)
    (path content : List Char) (extra : List (List Char × Yaml))
    (hext : ∀ kv ∈ extra, kv.1 ≠ str "category") :
    (∀ r doc, buildEntry safeLoad encode now path content extra = .ok r →
      parse_markdown safeLoad content path = .ok doc →
      assocGet r.2.1.metadata (str "category") =
          some (storedCategory doc.category) ∧
        storedCategory doc.category ≠ .null ∧
        pyTruthy (storedCategory doc.category) = true ∧
        (pyTruthy doc.category = false →
          categoryMatches (str "uncategorized") r.2.1.metadata) ∧
        (isYamlStr doc.category = true ∨ doc.category = .null →
          isYamlStr (storedCategory doc.category) = true)) ∧
      (∀ f r content' doc, indexOneFile safeLoad encode now f = .ok r →
        f.readResult = .ok content' →
        parse_markdown safeLoad content' f.path = .ok doc →
        assocGet r.2.metadata (str "category") =
            some (storedCategory doc.category) ∧
          (pyTruthy doc.category = false →
            categoryMatches (str "uncategorized") r.2.metadata)) := by
  constructor
  · intro r doc h hp
    have hcat := buildEntry_category safeLoad encode now path content extra
      r doc hext hp h
    have hprops := storedCategory_props doc.category
    refine ⟨hcat, hprops.1, hprops.2.1, ?_, hprops.2.2.2⟩
    intro hfalsy
    unfold categoryMatches
    rw [hcat, hprops.2.2.1 hfalsy]
  · intro f r content' doc h hread hp
    have hcat := indexOneFile_category safeLoad encode now f r content' doc
      hread hp h
    have hprops := storedCategory_props doc.category
    refine ⟨hcat, ?_⟩
    intro hfalsy
    unfold categoryMatches
    rw [hcat, hprops.2.2.1 hfalsy]

/-- Models `yaml.safe_load` on the frontmatter body `"category: 5"`, which
standard YAML parses to the mapping `{"category": 5}` with an integer
value. -/
def yamlCat5 : List Char → Except Unit Yaml := fun s =>
  if s = str "category: 5" then .ok (.map [(str "category", .int 5)])
  else .error ()

/-- Counterexample to C10 as stated: a document with frontmatter
`category: 5` is indexed successfully and its stored `category` metadata is
the integer `5`, not a string. -/
theorem stored_category_not_string :
    (buildEntry yamlCat5 encodeDemo (str "T") (str "c.md")
        (str "---\ncategory: 5\n---\nhello") []).map
        (fun r => assocGet r.2.1.metadata (str "category")) =
      .ok (some (.int 5)) ∧
      isYamlStr (.int 5) = false := ⟨rfl, rfl⟩

/-- The parse of `("hello", "x.md")`: a single-segment path and no
frontmatter, so the category is absent (`None`). -/
def catDemoDoc : ParsedDoc :=
  ⟨str "x.md", .str (str "X"), str "hello", .null, .list [], .map []⟩

/-- The pipeline result of indexing `("hello", "x.md")` at time `"T"`. -/
def catDemoR : List Char × Entry × IndexResponse :=
  (md5hex (utf8Encode (str "x.md")),
   ⟨[1],
    [(str "path", .str (str "x.md")),
     (str "title", .str (str "X")),
     (str "category", .str (str "uncategorized")),
     (str "indexed_at", .str (str "T"))],
    str "hello"⟩,
   ⟨str "x.md", md5hex (utf8Encode (str "x.md")), .str (str "X")⟩)

set_option maxRecDepth 4000 in
/-- Witness for C10 (amended) at the concrete document `("hello", "x.md")`,
whose parsed category is absent: the stored category is the string
`"uncategorized"` and the entry is matched by that exact-match filter. -/
theorem stored_category_always_present_witness :
    buildEntry yamlNever encodeDemo (str "T") (str "x.md") (str "hello") [] =
        .ok catDemoR ∧
      parse_markdown yamlNever (str "hello") (str "x.md") = .ok catDemoDoc ∧
      (assocGet catDemoR.2.1.metadata (str "category") =
          some (storedCategory catDemoDoc.category) ∧
        storedCategory catDemoDoc.category ≠ .null ∧
        pyTruthy (storedCategory catDemoDoc.category) = true ∧
        (pyTruthy catDemoDoc.category = false →
          categoryMatches (str "uncategorized") catDemoR.2.1.metadata) ∧
        (isYamlStr catDemoDoc.category = true ∨ catDemoDoc.category = .null →
          isYamlStr (storedCategory catDemoDoc.category) = true)) := by
  refine ⟨rfl, rfl, ?_⟩
  exact (stored_category_always_present yamlNever encodeDemo (str "T")
    (str "x.md") (str "hello") [] (by simp)).1 catDemoR catDemoDoc rfl rfl
